import Mathlib

/-!
Verification of the game-inference engine in `src/game.rs` (crate `rusteam`).

The engine is pure string/path inspection. Paths are modelled as `String`s
(valid UTF-8, so Rust's `to_str`/`to_string_lossy` are the identity), and the
relevant parts of `std::path::Path` (`file_name`, `extension`) are embedded
as executable Lean functions over the character list of the path.

The two filesystem collaborators declared in `filesystem.rs` are external to
the engine: `entries` is modelled by passing the listing it returns as a
`List String` parameter, and `has_same_name_as_parent_dir` by passing the
predicate as a `String → Bool` parameter. All claims quantify over every
behaviour of those collaborators.

The spec names the second platform variant `CompatibilityLayer`; the source
enum names it `Wine`. We keep the source's name.
-/

set_option autoImplicit false

namespace Rusteam

/-- The `Platform` enum of `game.rs`: `Native` (Linux) or `Wine`
(the spec's `CompatibilityLayer`). -/
inductive Platform where
  | Native
  | Wine
deriving DecidableEq

/-- The `Genre` enum of `game.rs`. Unused by inference. -/
inductive Genre where
  | Action
  | Platformer
deriving DecidableEq

/-- The `Game` struct of `game.rs`. -/
structure Game where
  name : Option String
  platform : Option Platform
  directory : String
  genres : List Genre
  launchers : List String
deriving DecidableEq

/-- Splits a character list at every slash, producing the raw chunks that
Unix `std::path` parsing starts from. Always returns at least one chunk. -/
def splitSlash : List Char → List (List Char)
  | [] => [[]]
  | c :: cs =>
    if c = '/' then [] :: splitSlash cs
    else
      match splitSlash cs with
      | [] => [[c]]
      | h :: t => (c :: h) :: t

/-- The normal components of a Unix path: raw slash-separated chunks with
empty chunks and `.` chunks dropped (a leading `.` is a `CurDir` component
and non-leading `.` chunks are normalised away by `std::path`; neither is a
`Normal` component, so both are irrelevant to `file_name`). -/
def pathComponents (path : String) : List String :=
  ((splitSlash path.data).map String.mk).filter
    (fun c => !(decide (c = "") || decide (c = ".")))

/-- Models `std::path::Path::file_name` on Unix: the last component when it
is a normal one, `none` when the path is empty, is just a root, or ends in
`..`. -/
def file_name (path : String) : Option String :=
  match (pathComponents path).getLast? with
  | none => none
  | some c => if c = ".." then none else some c

/-- The characters after the last dot of the list, or `none` when the list
has no dot. -/
def afterLastDot : List Char → Option (List Char)
  | [] => none
  | c :: cs =>
    match afterLastDot cs with
    | some r => some r
    | none => if c = '.' then some cs else none

/-- Models `std::path::Path::extension`: the part of the file name after its
last dot, where a dot in first position does not count (so a hidden file
such as `.sh` has no extension), and `none` when there is no file name or
no qualifying dot. -/
def extension (path : String) : Option String :=
  match file_name path with
  | none => none
  | some f =>
    match f.data with
    | [] => none
    | _ :: rest => (afterLastDot rest).map String.mk

/-- `Game::extension_in`: the file has an extension and it equals one of the
candidates. -/
def extension_in (file : String) (extensions : List String) : Bool :=
  match extension file with
  | none => false
  | some ext => extensions.any (fun e => decide (e = ext))

/-- `Game::is_native`. -/
def is_native (file : String) : Bool :=
  extension_in file ["sh", "x86", "x86_64"]

/-- `Game::is_wine`. -/
def is_wine (file : String) : Bool :=
  extension_in file ["exe"]

/-- `Game::platform`: `Native` is tested first, then `Wine`. -/
def platform (file : String) : Option Platform :=
  if is_native file then some Platform.Native
  else if is_wine file then some Platform.Wine
  else none

/-- Does `needle` start the list `hay`? -/
def startsWith : List Char → List Char → Bool
  | [], _ => true
  | _ :: _, [] => false
  | a :: as, b :: bs => decide (a = b) && startsWith as bs

/-- Does `needle` occur contiguously anywhere in `hay`? Models
`str::contains` with a literal pattern. -/
def occursIn (needle : List Char) : List Char → Bool
  | [] => startsWith needle []
  | c :: t => startsWith needle (c :: t) || occursIn needle t

/-- `Game::is_uninstall`: the file name contains `uninstall`
(case-sensitive); `false` when the path has no file name. -/
def is_uninstall (file : String) : Bool :=
  match file_name file with
  | none => false
  | some f => occursIn ("uninstall".data) f.data

/-- `Game::is_launcher`. The external collaborator
`has_same_name_as_parent_dir` is passed as the parameter `same_name`. -/
def is_launcher (same_name : String → Bool) (filepath : String) : Bool :=
  !is_uninstall filepath &&
    (is_native filepath || is_wine filepath || same_name filepath)

/-- `Game::same_platform`: empty slice gives `none`; otherwise the platform
of the first launcher, filtered by all launchers classifying to it. -/
def same_platform : List String → Option Platform
  | [] => none
  | l0 :: rest =>
    (platform l0).filter (fun first_platform =>
      (l0 :: rest).all (fun l =>
        ((platform l).filter (fun p => decide (p = first_platform))).isSome))

/-- `Game::same_platform` with the source's `launchers[0]` indexing made
explicit: `none` models an out-of-bounds panic, `some r` a normal return of
`r`. Used to state that the guard `launchers.is_empty()` keeps the indexing
in bounds, so the function never panics. -/
def same_platform_checked (launchers : List String) : Option (Option Platform) :=
  if launchers.isEmpty then some none
  else
    match launchers.get? 0 with
    | none => none
    | some l0 =>
      some ((platform l0).filter (fun first_platform =>
        launchers.all (fun l =>
          ((platform l).filter (fun p => decide (p = first_platform))).isSome)))

/-- `Game::basename`: `file_name` then `to_str`; the latter is the identity
on our UTF-8 strings. -/
def basename (path : String) : Option String :=
  file_name path

/-- `Game::find_launchers`, with the listing returned by the `entries`
collaborator passed in as `entries`. -/
def find_launchers (entries : List String) (same_name : String → Bool) :
    Option Platform × List String :=
  let launchers := entries.filter (fun filepath => is_launcher same_name filepath)
  (same_platform launchers, launchers)

/-- `Game::from_path` (the spec's `infer`), parameterised by the two
collaborators. -/
def from_path (entries : List String) (same_name : String → Bool)
    (directory : String) : Game :=
  let pl := find_launchers entries same_name
  { name := basename directory
    genres := []
    platform := pl.1
    launchers := pl.2
    directory := directory }

/-- `Game::from_path` built on `same_platform_checked`: `none` models a
panic anywhere in the inference pass. -/
def from_path_checked (entries : List String) (same_name : String → Bool)
    (directory : String) : Option Game :=
  let launchers := entries.filter (fun filepath => is_launcher same_name filepath)
  (same_platform_checked launchers).map (fun pl =>
    { name := basename directory
      genres := []
      platform := pl
      launchers := launchers
      directory := directory })

/-- The platform classifier with its two tests in the opposite order,
following the spec's remark that the order has no observable effect. -/
def platformWineFirst (file : String) : Option Platform :=
  if is_wine file then some Platform.Wine
  else if is_native file then some Platform.Native
  else none

/-! ### Helper lemmas -/

theorem filter_eq_some_iff {α : Type} {f : α → Bool} {o : Option α} {a : α} :
    o.filter f = some a ↔ o = some a ∧ f a = true := by
  cases o with
  | none => simp [Option.filter]
  | some b =>
    simp only [Option.filter, Option.some.injEq]
    by_cases h : f b = true
    · rw [if_pos h]
      simp only [Option.some.injEq]
      constructor
      · intro hba
        exact ⟨hba, hba ▸ h⟩
      · exact fun hp => hp.1
    · rw [if_neg h]
      constructor
      · intro hna
        cases hna
      · rintro ⟨rfl, hfa⟩
        exact absurd hfa h

theorem platform_filter_isSome (l : String) (fp : Platform) :
    ((platform l).filter (fun p => decide (p = fp))).isSome = true ↔
      platform l = some fp := by
  cases h : platform l with
  | none => simp [Option.filter]
  | some q =>
    by_cases hq : q = fp
    · subst hq
      simp [Option.filter]
    · simp [Option.filter, hq]

theorem same_platform_eq_some_iff (launchers : List String) (p : Platform) :
    same_platform launchers = some p ↔
      ∃ l0 rest, launchers = l0 :: rest ∧ platform l0 = some p ∧
        ∀ l ∈ launchers, platform l = some p := by
  cases launchers with
  | nil => simp [same_platform]
  | cons l0 rest =>
    rw [same_platform, filter_eq_some_iff]
    constructor
    · rintro ⟨hp0, hall⟩
      refine ⟨l0, rest, rfl, hp0, ?_⟩
      intro l hl
      exact (platform_filter_isSome l p).mp (List.all_eq_true.mp hall l hl)
    · rintro ⟨l0b, restb, heq, hp0, hall⟩
      injection heq with h1 h2
      subst h1
      subst h2
      refine ⟨hp0, List.all_eq_true.mpr ?_⟩
      intro l hl
      exact (platform_filter_isSome l p).mpr (hall l hl)

theorem same_platform_cons_none (l0 : String) (rest : List String)
    (h : platform l0 = none) : same_platform (l0 :: rest) = none := by
  rw [same_platform, h]
  rfl

theorem startsWith_iff (needle : List Char) : ∀ hay : List Char,
    startsWith needle hay = true ↔ ∃ rest, hay = needle ++ rest := by
  induction needle with
  | nil =>
    intro hay
    simp [startsWith]
  | cons a as ih =>
    intro hay
    cases hay with
    | nil => simp [startsWith]
    | cons b bs =>
      rw [startsWith]
      simp only [Bool.and_eq_true, decide_eq_true_eq, ih bs]
      constructor
      · rintro ⟨rfl, rest, rfl⟩
        exact ⟨rest, rfl⟩
      · rintro ⟨rest, heq⟩
        injection heq with h1 h2
        exact ⟨h1.symm, rest, h2⟩

theorem occursIn_iff (needle hay : List Char) :
    occursIn needle hay = true ↔ ∃ pre post, hay = pre ++ needle ++ post := by
  induction hay with
  | nil =>
    rw [occursIn, startsWith_iff]
    constructor
    · rintro ⟨rest, heq⟩
      exact ⟨[], rest, heq⟩
    · rintro ⟨pre, post, heq⟩
      have hpre : pre = [] ∧ needle ++ post = [] :=
        List.append_eq_nil.mp (List.append_assoc pre needle post ▸ heq).symm
      exact ⟨post, by rw [hpre.2]⟩
  | cons c t ih =>
    rw [occursIn, Bool.or_eq_true, startsWith_iff, ih]
    constructor
    · rintro (⟨rest, heq⟩ | ⟨pre, post, heq⟩)
      · exact ⟨[], rest, heq⟩
      · exact ⟨c :: pre, post, by rw [heq]; rfl⟩
    · rintro ⟨pre, post, heq⟩
      cases pre with
      | nil => exact Or.inl ⟨post, heq⟩
      | cons p ps =>
        injection heq with h1 h2
        exact Or.inr ⟨ps, post, h2⟩

theorem afterLastDot_eq_none_iff (l : List Char) :
    afterLastDot l = none ↔ ('.') ∉ l := by
  induction l with
  | nil => simp [afterLastDot]
  | cons c cs ih =>
    rw [afterLastDot]
    cases h : afterLastDot cs with
    | some r =>
      have hmem : ('.') ∈ cs := by
        by_contra hc
        rw [← ih, h] at hc
        cases hc
      simp [List.mem_cons, hmem]
    | none =>
      have hnot : ('.') ∉ cs := ih.mp h
      by_cases hc : c = '.'
      · subst hc
        simp [List.mem_cons]
      · have hc2 : ('.') ≠ c := fun hco => hc hco.symm
        simp [hc, List.mem_cons, hnot, hc2]

theorem is_native_iff (file : String) :
    is_native file = true ↔
      (extension file = some "sh" ∨ extension file = some "x86" ∨
        extension file = some "x86_64") := by
  cases h : extension file with
  | none => simp [is_native, extension_in, h]
  | some e =>
    simp only [is_native, extension_in, h, List.any, Bool.or_eq_true,
      decide_eq_true_eq, Option.some.injEq]
    constructor
    · rintro (h1 | h1 | h1 | h1)
      · exact Or.inl h1.symm
      · exact Or.inr (Or.inl h1.symm)
      · exact Or.inr (Or.inr h1.symm)
      · cases h1
    · rintro (h1 | h1 | h1)
      · exact Or.inl h1.symm
      · exact Or.inr (Or.inl h1.symm)
      · exact Or.inr (Or.inr (Or.inl h1.symm))

theorem is_wine_iff (file : String) :
    is_wine file = true ↔ extension file = some "exe" := by
  cases h : extension file with
  | none => simp [is_wine, extension_in, h]
  | some e =>
    simp only [is_wine, extension_in, h, List.any, Bool.or_eq_true,
      decide_eq_true_eq, Option.some.injEq]
    constructor
    · rintro (h1 | h1)
      · exact h1.symm
      · cases h1
    · exact fun h1 => Or.inl h1.symm

theorem from_path_eq (entries : List String) (same_name : String → Bool)
    (directory : String) :
    from_path entries same_name directory =
      { name := basename directory
        genres := []
        platform :=
          same_platform (entries.filter (fun f => is_launcher same_name f))
        launchers := entries.filter (fun f => is_launcher same_name f)
        directory := directory } := rfl

theorem same_platform_checked_eq (launchers : List String) :
    same_platform_checked launchers = some (same_platform launchers) := by
  cases launchers with
  | nil => rfl
  | cons l0 rest => rfl

theorem native_wine_disjoint_helper (file : String) :
    ¬(is_native file = true ∧ is_wine file = true) := by
  rintro ⟨hn, hw⟩
  rw [is_wine_iff] at hw
  rw [is_native_iff, hw] at hn
  rcases hn with h | h | h <;> exact absurd h (by decide)

theorem extension_in_of_none (file : String) (exts : List String)
    (h : extension file = none) : extension_in file exts = false := by
  simp [extension_in, h]

/-! ### Claim theorems -/

/-- C1: `same_platform` returns `none` on the empty sequence; on a non-empty
sequence whose first launcher has no platform it returns `none` regardless
of the rest; and on a non-empty sequence it returns `some p` exactly when
the first launcher classifies to `p` and every launcher in the sequence
classifies to `p`. -/
theorem same_platform_spec :
    same_platform [] = none ∧
    (∀ l0 rest, platform l0 = none → same_platform (l0 :: rest) = none) ∧
    (∀ l0 rest p, same_platform (l0 :: rest) = some p ↔
      (platform l0 = some p ∧ ∀ l ∈ l0 :: rest, platform l = some p)) := by
  refine ⟨rfl, same_platform_cons_none, ?_⟩
  intro l0 rest p
  rw [same_platform_eq_some_iff]
  constructor
  · rintro ⟨l0b, restb, heq, hp0, hall⟩
    injection heq with h1 h2
    subst h1
    subst h2
    exact ⟨hp0, hall⟩
  · rintro ⟨hp0, hall⟩
    exact ⟨l0, rest, rfl, hp0, hall⟩

/-- Witness for `same_platform_spec` at concrete inputs. -/
theorem same_platform_spec_witness :
    same_platform ["a.noext", "b.exe"] = none ∧
    same_platform ["a.exe", "b.exe"] = some Platform.Wine :=
  ⟨same_platform_spec.2.1 "a.noext" ["b.exe"] (by decide),
   (same_platform_spec.2.2 "a.exe" ["b.exe"] Platform.Wine).mpr
     ⟨by decide, by decide⟩⟩

/-- C2: for every listing the `entries` collaborator returns and every
behaviour of the name-match collaborator, if the `Game` produced by one
inference pass has `platform = some p` then its `launchers` are non-empty
and every launcher classifies to `p`. -/
theorem from_path_platform_invariant (entries : List String)
    (same_name : String → Bool) (directory : String) (p : Platform)
    (h : (from_path entries same_name directory).platform = some p) :
    (from_path entries same_name directory).launchers ≠ [] ∧
      ∀ l ∈ (from_path entries same_name directory).launchers,
        platform l = some p := by
  rw [from_path_eq] at h ⊢
  obtain ⟨l0, rest, heq, hp0, hall⟩ := (same_platform_eq_some_iff _ p).mp h
  exact ⟨by rw [heq]; exact List.cons_ne_nil l0 rest, hall⟩

/-- Witness for `from_path_platform_invariant` at a concrete inference. -/
theorem from_path_platform_invariant_witness :
    (from_path ["game/run.sh"] (fun _ => false) "game").launchers ≠ [] ∧
      ∀ l ∈ (from_path ["game/run.sh"] (fun _ => false) "game").launchers,
        platform l = some Platform.Native :=
  from_path_platform_invariant ["game/run.sh"] (fun _ => false) "game"
    Platform.Native (by decide)

/-- C3: `is_launcher` holds iff the file is not an uninstaller and it
classifies `Native`, or classifies `Wine` (the spec's `CompatibilityLayer`),
or the external name-match collaborator accepts it. -/
theorem is_launcher_spec (same_name : String → Bool) (filepath : String) :
    is_launcher same_name filepath = true ↔
      (is_uninstall filepath = false ∧
        (platform filepath = some Platform.Native ∨
          platform filepath = some Platform.Wine ∨
          same_name filepath = true)) := by
  cases hu : is_uninstall filepath <;>
    cases hn : is_native filepath <;>
      cases hw : is_wine filepath <;>
        simp [is_launcher, platform, hu, hn, hw]

/-- Witness for `is_launcher_spec` at a concrete input. -/
theorem is_launcher_spec_witness :
    is_launcher (fun _ => false) "d/run.x86_64" = true :=
  (is_launcher_spec (fun _ => false) "d/run.x86_64").mpr
    ⟨by decide, Or.inl (by decide)⟩

/-- C4: `is_uninstall` holds iff the file name contains the case-sensitive
substring `uninstall`; in particular it holds for `game/uninstall-game.sh`
and not for `Uninstall.exe`; and an uninstaller is never a launcher, for
every behaviour of the name-match collaborator. -/
theorem is_uninstall_spec :
    (∀ file n, file_name file = some n →
      (is_uninstall file = true ↔
        ∃ pre post, n.data = pre ++ (("uninstall").data) ++ post)) ∧
    is_uninstall "game/uninstall-game.sh" = true ∧
    is_uninstall "Uninstall.exe" = false ∧
    (∀ same_name file, is_uninstall file = true →
      is_launcher same_name file = false) := by
  refine ⟨?_, by decide, by decide, ?_⟩
  · intro file n hn
    simp only [is_uninstall, hn]
    exact occursIn_iff _ _
  · intro same_name file hu
    simp [is_launcher, hu]

/-- Witness for `is_uninstall_spec` at a concrete input. -/
theorem is_uninstall_spec_witness :
    (is_uninstall "g/uninstall.exe" = true ↔
      ∃ pre post,
        (("uninstall.exe").data) = pre ++ (("uninstall").data) ++ post) ∧
    is_launcher (fun _ => true) "g/uninstall.exe" = false :=
  ⟨is_uninstall_spec.1 "g/uninstall.exe" "uninstall.exe" (by decide),
   is_uninstall_spec.2.2.2 (fun _ => true) "g/uninstall.exe" (by decide)⟩

/-- C5: the classifier returns `Native` iff the extension is `sh`, `x86` or
`x86_64`; returns `Wine` (the spec's `CompatibilityLayer`) iff the extension
is `exe`; and a file with no extension classifies to no platform. -/
theorem platform_spec (file : String) :
    (platform file = some Platform.Native ↔
      (extension file = some "sh" ∨ extension file = some "x86" ∨
        extension file = some "x86_64")) ∧
    (platform file = some Platform.Wine ↔ extension file = some "exe") ∧
    (extension file = none → platform file = none) := by
  refine ⟨?_, ?_, ?_⟩
  · rw [← is_native_iff]
    cases hn : is_native file with
    | true => simp [platform, hn]
    | false =>
      cases hw : is_wine file with
      | true => simp [platform, hn, hw]
      | false => simp [platform, hn, hw]
  · rw [← is_wine_iff]
    cases hw : is_wine file with
    | false =>
      cases hn : is_native file <;> simp [platform, hn, hw]
    | true =>
      have hn : is_native file = false := by
        cases hn2 : is_native file with
        | false => rfl
        | true => exact absurd ⟨hn2, hw⟩ (native_wine_disjoint_helper file)
      simp [platform, hn, hw]
  · intro he
    have h1 := extension_in_of_none file ["sh", "x86", "x86_64"] he
    have h2 := extension_in_of_none file ["exe"] he
    simp [platform, is_native, is_wine, h1, h2]

/-- Witness for `platform_spec` at concrete inputs. -/
theorem platform_spec_witness :
    platform "game/run.sh" = some Platform.Native ∧ platform "README" = none :=
  ⟨(platform_spec "game/run.sh").1.mpr (Or.inl (by decide)),
   (platform_spec "README").2.2 (by decide)⟩

/-- C6: the inferred game's `name` is the final path component of the
directory when it exists and `none` when the directory has no final
component; its `directory` field is the input path unchanged; and its
`genres` are the empty sequence — for every listing and every behaviour of
the name-match collaborator. -/
theorem from_path_name_spec (entries : List String) (same_name : String → Bool)
    (directory : String) :
    (∀ n, file_name directory = some n →
      (from_path entries same_name directory).name = some n) ∧
    (file_name directory = none →
      (from_path entries same_name directory).name = none) ∧
    (from_path entries same_name directory).directory = directory ∧
    (from_path entries same_name directory).genres = [] :=
  ⟨fun _ hn => hn, fun hn => hn, rfl, rfl⟩

/-- Witness for `from_path_name_spec` at a concrete input. -/
theorem from_path_name_spec_witness :
    (from_path [] (fun _ => false) "games/mygame").name = some "mygame" :=
  (from_path_name_spec [] (fun _ => false) "games/mygame").1 "mygame"
    (by decide)

/-- C7: one inference pass is total: for every input path and every listing
the collaborator returns, the model with the source's `launchers[0]`
indexing made explicit returns `some` of the `Game` that `from_path`
computes, so no panic or error occurs and absence is represented only by
`none` fields or empty sequences. -/
theorem from_path_total (entries : List String) (same_name : String → Bool)
    (directory : String) :
    from_path_checked entries same_name directory =
      some (from_path entries same_name directory) := by
  simp only [from_path_checked]
  rw [same_platform_checked_eq]
  rfl

/-- C8: no file is both `is_native` and `is_wine` (the extension sets are
disjoint), so swapping the order of the two tests in the platform
classifier does not change its result. -/
theorem platform_order_irrelevant (file : String) :
    (is_native file && is_wine file) = false ∧
      platform file = platformWineFirst file := by
  have hd := native_wine_disjoint_helper file
  cases hn : is_native file with
  | false =>
    cases hw : is_wine file <;> simp [platform, platformWineFirst, hn, hw]
  | true =>
    have hw : is_wine file = false := by
      cases hw2 : is_wine file with
      | false => rfl
      | true => exact absurd ⟨hn, hw2⟩ hd
    simp [platform, platformWineFirst, hn, hw]

/-- C9: `is_uninstall` inspects only the final path component: it is false
whenever the final component does not contain `uninstall` — even if an
ancestor directory component does, as in `uninstallers/run.sh` — and false
when the path has no final component. -/
theorem is_uninstall_only_file_name :
    (∀ file n, file_name file = some n →
      (¬ ∃ pre post, n.data = pre ++ (("uninstall").data) ++ post) →
      is_uninstall file = false) ∧
    (∀ file, file_name file = none → is_uninstall file = false) ∧
    is_uninstall "uninstallers/run.sh" = false := by
  refine ⟨?_, ?_, by decide⟩
  · intro file n hn hno
    simp only [is_uninstall, hn]
    cases h : occursIn (("uninstall").data) n.data with
    | false => rfl
    | true => exact absurd ((occursIn_iff _ _).mp h) hno
  · intro file hn
    simp [is_uninstall, hn]

/-- Witness for `is_uninstall_only_file_name` at a concrete input. -/
theorem is_uninstall_only_file_name_witness :
    is_uninstall "uninstallers/a.x86" = false :=
  is_uninstall_only_file_name.1 "uninstallers/a.x86" "a.x86" (by decide)
    (fun hex =>
      absurd ((occursIn_iff (("uninstall").data) (("a.x86").data)).mpr hex)
        (by decide))

/-- C10: a hidden file whose name starts with a dot and contains no other
dot has no extension, fails `extension_in` against every candidate set,
classifies to no platform, and can be a launcher only through the
parent-directory name-match collaborator. -/
theorem hidden_file_no_extension (file n : String)
    (hn : file_name file = some n)
    (hd : ∃ cs, n.data = ('.') :: cs ∧ ('.') ∉ cs) :
    extension file = none ∧
    (∀ exts, extension_in file exts = false) ∧
    platform file = none ∧
    (∀ same_name, is_launcher same_name file = true →
      same_name file = true) := by
  obtain ⟨cs, hcs, hnd⟩ := hd
  have he : extension file = none := by
    simp only [extension, hn, hcs]
    rw [(afterLastDot_eq_none_iff cs).mpr hnd]
    rfl
  have hin : ∀ exts, extension_in file exts = false :=
    fun exts => extension_in_of_none file exts he
  have h1 : is_native file = false := hin ["sh", "x86", "x86_64"]
  have h2 : is_wine file = false := hin ["exe"]
  have hp : platform file = none := by simp [platform, h1, h2]
  refine ⟨he, hin, hp, ?_⟩
  intro same_name hl
  simp [is_launcher, h1, h2] at hl
  exact hl.2

/-- Witness for `hidden_file_no_extension` at the hidden file `.sh`. -/
theorem hidden_file_no_extension_witness :
    extension ".sh" = none ∧ platform ".sh" = none :=
  ⟨(hidden_file_no_extension ".sh" ".sh" (by decide)
      ⟨['s', 'h'], by decide, by decide⟩).1,
   (hidden_file_no_extension ".sh" ".sh" (by decide)
      ⟨['s', 'h'], by decide, by decide⟩).2.2.1⟩

end Rusteam
